import Mathlib

/-
A verification development for the orgpy file organizer
(`orgpy.py`): the extension→category configuration tables, the
classifier, the directory scanner, the relocator and the run
orchestrator, embedded shallowly over an explicit model of the
filesystem state, together with theorems about their behaviour.
-/

set_option maxRecDepth 4000

namespace Orgpy

open scoped List

/-- Kind of the entry a path resolves to in the model filesystem: a regular
file, a directory, or a symbolic link whose target is a directory. -/
inductive FKind where
  | file
  | dir
  | dirLink
deriving DecidableEq

/-- The scan error raised when the root directory cannot be listed
(`os.listdir` raising `OSError`: path missing, not a directory, or
permission denied). -/
inductive OrgError where
  | directoryUnreadable
deriving DecidableEq

/-- Model filesystem state: the kind of entry each absolute path resolves to
(`none` = nothing there), the listing a directory scan of a path returns
(`none` = the path cannot be listed), and the paths at which the OS denies
creating or writing (permission model). The listing is sampled once, before
any mutation, mirroring the single `os.listdir` call of a run. -/
structure FS where
  kind : String → Option FKind
  listing : String → Option (List String)
  denied : String → Bool

/-- Whether a string starts with the character `c`. -/
def startsWithChar (s : String) (c : Char) : Bool :=
  match s.data with
  | [] => false
  | x :: _ => x = c

/-- Whether a string ends with the character `c`. -/
def endsWithChar (s : String) (c : Char) : Bool :=
  match s.data.getLast? with
  | none => false
  | some x => x = c

/-- `os.path.join` for a POSIX host, two components (the only arity the
source uses). -/
def pathJoin (a b : String) : String :=
  if startsWithChar b '/' then b
  else if a = "" ∨ endsWithChar a '/' then a ++ b
  else a ++ "/" ++ b

/-- `os.path.isfile`: the path resolves to a regular file (symbolic links to
directories and plain directories do not qualify). -/
def isfile (fs : FS) (p : String) : Bool :=
  match fs.kind p with
  | some FKind.file => true
  | _ => false

/-- `os.path.exists`. -/
def pathExists (fs : FS) (p : String) : Bool :=
  (fs.kind p).isSome

/-- `os.makedirs`: create the directory at `p`; `none` models the raised
`OSError` when the OS denies creation (failure leaves the state unchanged). -/
def makedirs (fs : FS) (p : String) : Option FS :=
  if fs.denied p then none
  else some { fs with kind := fun q => if q = p then some FKind.dir else fs.kind q }

/-- `os.replace src dst`: atomic move, overwriting `dst`; `none` models the
raised `OSError` (source vanished, or writing at the destination denied). -/
def osReplace (fs : FS) (src dst : String) : Option FS :=
  if fs.kind src = none ∨ fs.denied dst then none
  else some { fs with kind := fun q =>
      if q = dst then fs.kind src else if q = src then none else fs.kind q }

/-- Index of the last occurrence of `c` in `l`, if any. -/
def lastIdxOf (l : List Char) (c : Char) : Option Nat :=
  match l with
  | [] => none
  | x :: xs =>
    match lastIdxOf xs c with
    | some i => some (i + 1)
    | none => if x = c then some 0 else none

/-- `os.path.splitext` (POSIX `genericpath._splitext` with `sep = '/'`,
`extsep = '.'`): split at the last dot after the last separator, unless every
character between the separator and that dot is itself a dot (leading dots of
the final component are part of the root, so `".bashrc"` has no extension). -/
def splitext (p : String) : String × String :=
  let l := p.data
  let sepIdx : Int := match lastIdxOf l '/' with | some i => (i : Int) | none => -1
  let dotIdx : Int := match lastIdxOf l '.' with | some i => (i : Int) | none => -1
  if sepIdx < dotIdx then
    let start : Nat := (sepIdx + 1).toNat
    let d : Nat := dotIdx.toNat
    if ((l.drop start).take (d - start)).any (fun ch => ch ≠ '.') then
      (⟨l.take d⟩, ⟨l.drop d⟩)
    else (p, "")
  else (p, "")

/-- Python-dict assignment `m[k] = v` on an association list: replace the
value in place if the key is present (keeping its position, as CPython dicts
do), otherwise append the new pair at the end. -/
def dictSet {α : Type} (m : List (String × α)) (k : String) (v : α) :
    List (String × α) :=
  match m with
  | [] => [(k, v)]
  | (k', v') :: rest =>
    if k' = k then (k, v) :: rest else (k', v') :: dictSet rest k v

/-- Python-dict lookup `m[k]` / `k in m` on an association list (first match;
`dictSet` keeps keys unique, so the first match is the only one). -/
def dictGet {α : Type} (m : List (String × α)) (k : String) : Option α :=
  match m with
  | [] => none
  | (k', v') :: rest => if k' = k then some v' else dictGet rest k

/-- `defaultdict(list)` append `m[k].append(v)`: extend the list of an
existing key in place, or materialize the key with `[v]` (new keys appear in
first-append order, as in the source's `defaultdict`). -/
def addToDir (m : List (String × List String)) (k v : String) :
    List (String × List String) :=
  match m with
  | [] => [(k, [v])]
  | (k', vs) :: rest =>
    if k' = k then (k', vs ++ [v]) :: rest else (k', vs) :: addToDir rest k v

/-- `DEFAULT_FILE_CATEGORIES` from the source, in its insertion order. -/
def DEFAULT_FILE_CATEGORIES : List (String × List String) :=
  [ ("Docs", [".md", ".txt"]),
    ("Docs/PDF", [".pdf"]),
    ("Docs/Word", [".doc", ".docx", ".odt", ".rtf"]),
    ("Docs/Sheets", [".ods", ".xls", ".xlsm", ".xlsx"]),
    ("Docs/Presentations", [".key", ".odp", ".pps", ".ppt", ".pptx"]),
    ("Images", [".ai", ".bmp", ".gif", ".ico", ".jpeg", ".jpg", ".png",
                ".ps", ".psd", ".svg", ".tif", ".tiff", ".webp"]),
    ("Audio", [".aif", ".cda", ".mid", ".mp3", ".mpa", ".ogg",
               ".wav", ".wma", ".wpl"]),
    ("Videos", [".3g2", ".3gp", ".avi", ".flv", ".h264", ".m4v", ".mkv",
                ".mov", ".mp4", ".mpg", ".rm", ".swf", ".vob", ".wmv"]),
    ("Archives", [".7z", ".arj", ".bz2", ".gz", ".lz4", ".rar",
                  ".tar", ".xz", ".z", ".zip", ".zstd"]),
    ("Programs", [".apk", ".bin", ".deb", ".exe", ".jar", ".msi", ".rpm"]),
    ("Code", [".c", ".cpp", ".java", ".py", ".js", ".class", ".h", ".sh",
              ".bat", ".css", ".go", ".rs", ".cs", ".swift", ".r", ".php",
              ".dart", ".kt", ".mat", ".pl", ".rb", ".scala"]),
    ("Code/Markup", [".html", ".xml", ".xhtml", ".mhtml"]),
    ("Code/Database", [".sql", ".db", ".json", ".csv"]) ]

/-- ASCII lowercasing of one character (`str.lower` restricted to the ASCII
range; every extension in the tables is ASCII). -/
def charLower (c : Char) : Char :=
  if 65 ≤ c.toNat ∧ c.toNat ≤ 90 then Char.ofNat (c.toNat + 32) else c

/-- `str.lower` (ASCII range). -/
def pyLower (s : String) : String :=
  ⟨s.data.map charLower⟩

/-- `str.replace` with a one-character pattern and a one-character
replacement, which is a character-wise substitution. -/
def replaceChar (s : String) (a b : Char) : String :=
  ⟨s.data.map (fun c => if c = a then b else c)⟩

/-- `merge_categories`: start from the defaults and, for each category of the
user config's `file_categories` table (when present), assign the
user-supplied extension list over the default one. `none` models a config
dict without the `file_categories` key. -/
def merge_categories (userCats : Option (List (String × List String))) :
    List (String × List String) :=
  match userCats with
  | none => DEFAULT_FILE_CATEGORIES
  | some user => user.foldl (fun m kv => dictSet m kv.1 kv.2) DEFAULT_FILE_CATEGORIES

/-- `os.sep` on the POSIX host (a single character). -/
def osSep : Char := '/'

/-- `build_extension_map`: flatten the category table into an
extension→directory map, lowercasing every extension and translating the
category's slashes to the host separator; a later category silently
overwrites an earlier claim to the same lowercased extension. -/
def build_extension_map (file_categories : List (String × List String)) :
    List (String × String) :=
  file_categories.foldl
    (fun dmap kv =>
      kv.2.foldl (fun d ext => dictSet d (pyLower ext) (replaceChar kv.1 '/' osSep)) dmap)
    []

/-- The module-level `dir_map` of a run with no user overrides. -/
def dirMapDefault : List (String × String) :=
  build_extension_map (merge_categories none)

/-- `categorize_file`: fail closed unless the joined path is a regular file,
then split off the extension, lowercase it and look it up in the map,
returning `(directory, true)` on a hit and `("", false)` otherwise. The map
is passed explicitly (the source reads the module-level `dir_map`). -/
def categorize_file (fs : FS) (file path : String) (dm : List (String × String)) :
    String × Bool :=
  if isfile fs (pathJoin path file) then
    let ext := (splitext file).2
    match dictGet dm (pyLower ext) with
    | some d => (d, true)
    | none => ("", false)
  else ("", false)

/-- One step of the `analyze_files` loop: route the entry to its category's
list or to the skipped list. -/
def analyzeStep (fs : FS) (path : String) (dm : List (String × String))
    (acc : List (String × List String) × List String) (file : String) :
    List (String × List String) × List String :=
  let r := categorize_file fs file path dm
  if r.2 then (addToDir acc.1 r.1 file, acc.2) else (acc.1, acc.2 ++ [file])

/-- `analyze_files`: list the directory once (propagating the unreadable
condition) and partition the entries into files-by-destination and skipped. -/
def analyze_files (fs : FS) (path : String) (dm : List (String × String)) :
    Except OrgError (List (String × List String) × List String) :=
  match fs.listing path with
  | none => .error .directoryUnreadable
  | some names => .ok (names.foldl (analyzeStep fs path dm) ([], []))

/-- `move_file`: ensure the destination directory exists (creating it when
absent), then atomically replace-move the file; any failure in either step is
caught and reported as `false` (a directory created before a failing move
stays created, as in the source's `try` block). -/
def move_file (fs : FS) (source_path dest_path file : String) : FS × Bool :=
  match (if pathExists fs dest_path then some fs else makedirs fs dest_path) with
  | none => (fs, false)
  | some fs1 =>
    match osReplace fs1 (pathJoin source_path file) (pathJoin dest_path file) with
    | none => (fs1, false)
    | some fs2 => (fs2, true)

/-- Code-point lexicographic "less or equal" on character lists, the order
Python's string comparison uses. -/
def charListLe : List Char → List Char → Bool
  | [], _ => true
  | _ :: _, [] => false
  | a :: as, b :: bs =>
    if a.toNat < b.toNat then true
    else if b.toNat < a.toNat then false
    else charListLe as bs

/-- Python's `<=` on strings: code-point lexicographic comparison. -/
def pyStrLe (a b : String) : Bool := charListLe a.data b.data

/-- Insert a string into a list, before the first element it is `pyStrLe`-below. -/
def pyInsert (x : String) : List String → List String
  | [] => [x]
  | y :: ys => if pyStrLe x y then x :: y :: ys else y :: pyInsert x ys

/-- Python's `sorted` on a list of strings: the permutation ordered by
code-point comparison (insertion sort; equal keys are identical strings, so
the result is the unique sorted permutation `sorted` returns). -/
def pySorted : List String → List String
  | [] => []
  | x :: xs => pyInsert x (pySorted xs)

/-- One step of the `process_directory` loop over a single file. -/
def procStep (path dest_dir : String) (dry_run : Bool)
    (acc : FS × Nat × List String) (file : String) : FS × Nat × List String :=
  if dry_run then (acc.1, acc.2.1 + 1, acc.2.2)
  else
    let dest_path := pathJoin path dest_dir
    let r := move_file acc.1 path dest_path file
    if r.2 then (r.1, acc.2.1 + 1, acc.2.2)
    else (r.1, acc.2.1, acc.2.2 ++ [file])

/-- `process_directory`: process the files of one destination directory in
sorted order, counting moves and collecting per-file failures; in dry-run
mode every file is counted and nothing is touched. Returns the final
filesystem state with `(moved_count, failed_files)`. -/
def process_directory (fs : FS) (path dest_dir : String) (files : List String)
    (dry_run : Bool) : FS × Nat × List String :=
  (pySorted files).foldl (procStep path dest_dir dry_run) (fs, 0, [])

/-- One step of the `organize` loop over a `(dest_dir, files)` pair: skip
empty lists, otherwise relocate the batch, add its moved count to the total
and extend the skipped list with its failures (source line
`skipped_files.extend(failed_files)`). -/
def orgStep (path : String) (dry_run : Bool)
    (acc : FS × Nat × List String) (kv : String × List String) :
    FS × Nat × List String :=
  if kv.2 = [] then acc
  else
    let r := process_directory acc.1 path kv.1 kv.2 dry_run
    (r.1, acc.2.1 + r.2.1, acc.2.2 ++ r.2.2)

/-- `organize`: scan, then drive the relocator across every discovered
destination, accumulating the total and the skipped list the summary
reports. Returns the final filesystem state with
`(total_files, skipped_files)`; the unreadable-directory condition from the
scan propagates. -/
def organize (fs : FS) (path : String) (dm : List (String × String))
    (dry_run : Bool) : Except OrgError (FS × Nat × List String) :=
  match analyze_files fs path dm with
  | .error e => .error e
  | .ok (files_by_dir, skipped_files) =>
    .ok (files_by_dir.foldl (orgStep path dry_run) (fs, 0, skipped_files))

/-- All filenames assigned to some category of a files-by-destination map. -/
def contents (m : List (String × List String)) : List String :=
  (m.map Prod.snd).flatten

/-- Total number of filenames assigned across a files-by-destination map. -/
def sumLens (m : List (String × List String)) : Nat :=
  (m.map (fun kv => kv.2.length)).sum

/-- The extension-extraction rule exactly as the specification words it: the
substring from the last `.` of the name to its end, or none when the name
contains no `.` (so a name whose only `.` is its leading character has an
extension equal to the whole name). Stated for comparison with `splitext`. -/
def specExtNaive (name : String) : Option String :=
  match lastIdxOf name.data '.' with
  | none => none
  | some d => some ⟨name.data.drop d⟩

/-- The classifier as the specification words it, using `specExtNaive` for
extension extraction and otherwise the same fail-closed check and lookup. -/
def specClassifyNaive (fs : FS) (file path : String) (dm : List (String × String)) :
    String × Bool :=
  if isfile fs (pathJoin path file) then
    match specExtNaive file with
    | some e =>
      match dictGet dm (pyLower e) with
      | some d => (d, true)
      | none => ("", false)
    | none => ("", false)
  else ("", false)

/-- The corrected extraction rule for separator-free entry names: the
substring from the last `.`, except that a name all of whose characters
before that `.` are themselves dots (such as `".bashrc"`) has no extension —
the leading-dot convention of `os.path.splitext`. -/
def specExtPosix (name : String) : Option String :=
  match lastIdxOf name.data '.' with
  | none => none
  | some d =>
    if (name.data.take d).any (fun ch => ch ≠ '.') then some ⟨name.data.drop d⟩
    else none

/-- The classifier under the corrected extraction rule `specExtPosix`. -/
def specClassifyPosix (fs : FS) (file path : String) (dm : List (String × String)) :
    String × Bool :=
  if isfile fs (pathJoin path file) then
    match specExtPosix file with
    | some e =>
      match dictGet dm (pyLower e) with
      | some d => (d, true)
      | none => ("", false)
    | none => ("", false)
  else ("", false)

/-- Fixture: a root `/r` holding a single regular file named `.pdf`. -/
def fsDot : FS :=
  { kind := fun p => if p = "/r/.pdf" then some FKind.file else none
  , listing := fun p => if p = "/r" then some [".pdf"] else none
  , denied := fun _ => false }

/-- Fixture: a root `/r` whose subdirectory `sub` holds a regular file
`x.pdf`; the entry name `sub/x.pdf` is nested, not a direct child. -/
def fsNested : FS :=
  { kind := fun p =>
      if p = "/r/sub/x.pdf" then some FKind.file
      else if p = "/r/sub" then some FKind.dir
      else none
  , listing := fun p => if p = "/r" then some [] else none
  , denied := fun _ => false }

/-- Fixture: a root `/r` where `a.txt` and `c.txt` are regular files but
`b.txt` is absent, so moving `b.txt` fails (source vanished) while its
neighbours move fine. -/
def fs4 : FS :=
  { kind := fun p => if p = "/r/a.txt" ∨ p = "/r/c.txt" then some FKind.file else none
  , listing := fun p => if p = "/r" then some ["a.txt", "b.txt", "c.txt"] else none
  , denied := fun _ => false }

/-- Fixture: a root `/r` with a classifiable `b.txt` and an unclassifiable
`noext`, where the OS denies writing the moved file at `/r/Docs/b.txt`, so
the relocation of `b.txt` fails after classification. -/
def fsC1 : FS :=
  { kind := fun p => if p = "/r/b.txt" ∨ p = "/r/noext" then some FKind.file else none
  , listing := fun p => if p = "/r" then some ["b.txt", "noext"] else none
  , denied := fun p => p = "/r/Docs/b.txt" }

/-- Fixture: the specification's end-to-end directory — `doc.pdf`,
`pic.JPG`, `readme` (no extension) and `blob.xyz` (unknown extension). -/
def fsDemo : FS :=
  { kind := fun p =>
      if p = "/r/doc.pdf" ∨ p = "/r/pic.JPG" ∨ p = "/r/readme" ∨ p = "/r/blob.xyz"
      then some FKind.file else none
  , listing := fun p =>
      if p = "/r" then some ["doc.pdf", "pic.JPG", "readme", "blob.xyz"] else none
  , denied := fun _ => false }

/-- Fixture: a filesystem on which no path exists and no path can be
listed. -/
def fsUnreadable : FS :=
  { kind := fun _ => none
  , listing := fun _ => none
  , denied := fun _ => false }

/-- Fixture: a root `/r` holding the two regular files `FILE.PDF` and
`file.pdf`, which differ only in the letter case of their extension. -/
def fsCase : FS :=
  { kind := fun p => if p = "/r/FILE.PDF" ∨ p = "/r/file.pdf" then some FKind.file else none
  , listing := fun p => if p = "/r" then some ["FILE.PDF", "file.pdf"] else none
  , denied := fun _ => false }

/-- Inserting into a sorted list is a permutation of consing. -/
lemma pyInsert_perm (x : String) (l : List String) : pyInsert x l ~ x :: l := by
  induction l with
  | nil => exact List.Perm.refl _
  | cons y ys ih =>
    by_cases h : pyStrLe x y = true
    · simp [pyInsert, h]
    · show (if pyStrLe x y = true then x :: y :: ys else y :: pyInsert x ys) ~ x :: y :: ys
      rw [if_neg h]
      exact (ih.cons y).trans (List.Perm.swap x y ys)

/-- `pySorted` permutes its input. -/
lemma pySorted_perm (l : List String) : pySorted l ~ l := by
  induction l with
  | nil => exact List.Perm.refl _
  | cons x xs ih => exact (pyInsert_perm x (pySorted xs)).trans (ih.cons x)

/-- `pySorted` preserves length. -/
@[simp] lemma pySorted_length (l : List String) : (pySorted l).length = l.length :=
  (pySorted_perm l).length_eq

/-- `pySorted` preserves membership. -/
@[simp] lemma pySorted_mem {f : String} {l : List String} :
    f ∈ pySorted l ↔ f ∈ l :=
  (pySorted_perm l).mem_iff

/-- Dry-run step: count the file, touch nothing. -/
lemma procStep_true (path dest_dir : String) (acc : FS × Nat × List String)
    (file : String) :
    procStep path dest_dir true acc file = (acc.1, acc.2.1 + 1, acc.2.2) := rfl

/-- Each relocation step accounts for exactly one file: it either increments
the moved count or appends the file to the failed list. -/
lemma procStep_count (path dest_dir : String) (dry_run : Bool)
    (acc : FS × Nat × List String) (file : String) :
    (procStep path dest_dir dry_run acc file).2.1
      + (procStep path dest_dir dry_run acc file).2.2.length
      = acc.2.1 + acc.2.2.length + 1 := by
  cases dry_run with
  | true => simp [procStep]; omega
  | false =>
    by_cases h : (move_file acc.1 path (pathJoin path dest_dir) file).2 = true <;>
      simp [procStep, h] <;> omega

/-- Filenames in the failed list after a step come from the failed list
before it or are the stepped file itself. -/
lemma procStep_failed_mem (path dest_dir : String) (dry_run : Bool)
    (acc : FS × Nat × List String) (file f : String)
    (h : f ∈ (procStep path dest_dir dry_run acc file).2.2) :
    f ∈ acc.2.2 ∨ f = file := by
  cases dry_run with
  | true => exact .inl h
  | false =>
    by_cases hm : (move_file acc.1 path (pathJoin path dest_dir) file).2 = true <;>
      simp [procStep, hm] at h
    · exact .inl h
    · exact h

/-- Folding the relocation step over a file list accounts for every file. -/
lemma foldl_procStep_count (path dest_dir : String) (dry_run : Bool) :
    ∀ (L : List String) (acc : FS × Nat × List String),
      (L.foldl (procStep path dest_dir dry_run) acc).2.1
        + (L.foldl (procStep path dest_dir dry_run) acc).2.2.length
        = acc.2.1 + acc.2.2.length + L.length := by
  intro L
  induction L with
  | nil => intro acc; simp
  | cons x xs ih =>
    intro acc
    rw [List.foldl_cons, ih]
    have := procStep_count path dest_dir dry_run acc x
    simp only [List.length_cons]
    omega

/-- Failed filenames after folding the relocation step come from the initial
failed list or from the folded file list. -/
lemma foldl_procStep_failed_mem (path dest_dir : String) (dry_run : Bool) :
    ∀ (L : List String) (acc : FS × Nat × List String) (f : String),
      f ∈ (L.foldl (procStep path dest_dir dry_run) acc).2.2 →
      f ∈ acc.2.2 ∨ f ∈ L := by
  intro L
  induction L with
  | nil => intro acc f h; exact .inl h
  | cons x xs ih =>
    intro acc f h
    rcases ih (procStep path dest_dir dry_run acc x) f h with h' | h'
    · rcases procStep_failed_mem path dest_dir dry_run acc x f h' with h'' | h''
      · exact .inl h''
      · exact .inr (h'' ▸ List.mem_cons_self x xs)
    · exact .inr (List.mem_cons_of_mem x h')

/-- Folding the dry-run step counts the files and changes nothing else. -/
lemma foldl_procStep_dry (path dest_dir : String) :
    ∀ (L : List String) (acc : FS × Nat × List String),
      L.foldl (procStep path dest_dir true) acc = (acc.1, acc.2.1 + L.length, acc.2.2) := by
  intro L
  induction L with
  | nil => intro acc; simp
  | cons x xs ih =>
    intro acc
    rw [List.foldl_cons, procStep_true, ih]
    have : acc.2.1 + 1 + xs.length = acc.2.1 + (xs.length + 1) := by omega
    simp [this]

/-- Conservation for `process_directory`: moved plus failed equals the input
count. -/
lemma process_directory_count (fs : FS) (path dest_dir : String)
    (files : List String) (dry_run : Bool) :
    (process_directory fs path dest_dir files dry_run).2.1
      + (process_directory fs path dest_dir files dry_run).2.2.length
      = files.length := by
  unfold process_directory
  rw [foldl_procStep_count]
  simp

/-- Every failed filename of `process_directory` is drawn from its input. -/
lemma process_directory_failed_mem (fs : FS) (path dest_dir : String)
    (files : List String) (dry_run : Bool) (f : String)
    (h : f ∈ (process_directory fs path dest_dir files dry_run).2.2) :
    f ∈ files := by
  unfold process_directory at h
  rcases foldl_procStep_failed_mem path dest_dir dry_run _ _ f h with h' | h'
  · simp at h'
  · exact pySorted_mem.1 h'

/-- A dry run of `process_directory` leaves the filesystem untouched, counts
every file as moved and fails none. -/
lemma process_directory_dry (fs : FS) (path dest_dir : String) (files : List String) :
    process_directory fs path dest_dir files true = (fs, files.length, []) := by
  unfold process_directory
  rw [foldl_procStep_dry]
  simp

/-- Reduction of a scan step on a classified entry. -/
lemma analyzeStep_classified (fs : FS) (path : String) (dm : List (String × String))
    (acc : List (String × List String) × List String) (file : String)
    (h : (categorize_file fs file path dm).2 = true) :
    analyzeStep fs path dm acc file =
      (addToDir acc.1 (categorize_file fs file path dm).1 file, acc.2) := by
  simp [analyzeStep, h]

/-- Reduction of a scan step on an unclassified entry. -/
lemma analyzeStep_unclassified (fs : FS) (path : String) (dm : List (String × String))
    (acc : List (String × List String) × List String) (file : String)
    (h : (categorize_file fs file path dm).2 = false) :
    analyzeStep fs path dm acc file = (acc.1, acc.2 ++ [file]) := by
  simp [analyzeStep, h]

/-- Appending a file to a category's list adds exactly that file to the
overall contents, up to permutation. -/
lemma contents_addToDir (m : List (String × List String)) (k v : String) :
    contents (addToDir m k v) ~ v :: contents m := by
  induction m with
  | nil => simp [addToDir, contents]
  | cons kv rest ih =>
    cases kv with
    | mk k' vs =>
      by_cases h : k' = k
      · simp only [contents, addToDir, if_pos h, List.map_cons, List.flatten_cons]
        rw [List.append_assoc]
        exact List.perm_middle
      · simp only [contents, addToDir, if_neg h, List.map_cons, List.flatten_cons]
        exact ((ih).append_left vs).trans List.perm_middle

/-- Appending to a category never materializes an empty file list. -/
lemma addToDir_nonempty (m : List (String × List String)) (k v : String)
    (h : ∀ p ∈ m, p.2 ≠ []) : ∀ p ∈ addToDir m k v, p.2 ≠ [] := by
  induction m with
  | nil => intro p hp; simp [addToDir] at hp; simp [hp]
  | cons kv rest ih =>
    intro p hp
    cases kv with
    | mk k' vs =>
      by_cases hk : k' = k
      · simp only [addToDir, if_pos hk] at hp
        rcases List.mem_cons.1 hp with h' | h'
        · simp [h']
        · exact h p (List.mem_cons_of_mem _ h')
      · simp only [addToDir, if_neg hk] at hp
        rcases List.mem_cons.1 hp with h' | h'
        · exact h p (h' ▸ List.mem_cons_self _ _)
        · exact ih (fun q hq => h q (List.mem_cons_of_mem _ hq)) p h'

/-- A scan step moves exactly the examined entry into the partition. -/
lemma analyzeStep_perm (fs : FS) (path : String) (dm : List (String × String))
    (acc : List (String × List String) × List String) (file : String) :
    contents (analyzeStep fs path dm acc file).1 ++ (analyzeStep fs path dm acc file).2
      ~ (contents acc.1 ++ acc.2) ++ [file] := by
  by_cases h : (categorize_file fs file path dm).2 = true
  · rw [analyzeStep_classified fs path dm acc file h]
    refine ((contents_addToDir _ _ _).append_right acc.2).trans ?_
    exact (List.perm_append_singleton _ _).symm
  · rw [analyzeStep_unclassified fs path dm acc file (Bool.eq_false_iff.2 h)]
    simp

/-- Folding the scan step over the listing partitions it: category contents
plus skipped is a permutation of the starting state plus the examined
names. -/
lemma foldl_analyzeStep_perm (fs : FS) (path : String) (dm : List (String × String)) :
    ∀ (names : List String) (acc : List (String × List String) × List String),
      contents (names.foldl (analyzeStep fs path dm) acc).1
          ++ (names.foldl (analyzeStep fs path dm) acc).2
        ~ (contents acc.1 ++ acc.2) ++ names := by
  intro names
  induction names with
  | nil => intro acc; simp
  | cons x xs ih =>
    intro acc
    rw [List.foldl_cons]
    refine (ih (analyzeStep fs path dm acc x)).trans ?_
    refine ((analyzeStep_perm fs path dm acc x).append_right xs).trans ?_
    simp

/-- A filename lands in the category contents of the scan fold exactly when
it was already there or is a classified member of the examined names. -/
lemma foldl_analyzeStep_mem_contents (fs : FS) (path : String)
    (dm : List (String × String)) :
    ∀ (names : List String) (acc : List (String × List String) × List String)
      (f : String),
      f ∈ contents (names.foldl (analyzeStep fs path dm) acc).1 ↔
        f ∈ contents acc.1 ∨
          (f ∈ names ∧ (categorize_file fs f path dm).2 = true) := by
  intro names
  induction names with
  | nil => intro acc f; simp
  | cons x xs ih =>
    intro acc f
    rw [List.foldl_cons, ih]
    by_cases hc : (categorize_file fs x path dm).2 = true
    · rw [analyzeStep_classified fs path dm acc x hc]
      have hmem : f ∈ contents (addToDir acc.1 (categorize_file fs x path dm).1 x) ↔
          f = x ∨ f ∈ contents acc.1 := by
        rw [(contents_addToDir _ _ _).mem_iff, List.mem_cons]
      simp only [hmem]
      constructor
      · rintro ((rfl | hf) | ⟨hxs, hcf⟩)
        · exact .inr ⟨List.mem_cons_self _ _, hc⟩
        · exact .inl hf
        · exact .inr ⟨List.mem_cons_of_mem _ hxs, hcf⟩
      · rintro (hf | ⟨hmem', hcf⟩)
        · exact .inl (.inr hf)
        · rcases List.mem_cons.1 hmem' with rfl | hxs
          · exact .inl (.inl rfl)
          · exact .inr ⟨hxs, hcf⟩
    · rw [analyzeStep_unclassified fs path dm acc x (Bool.eq_false_iff.2 hc)]
      constructor
      · rintro (hf | ⟨hxs, hcf⟩)
        · exact .inl hf
        · exact .inr ⟨List.mem_cons_of_mem _ hxs, hcf⟩
      · rintro (hf | ⟨hmem', hcf⟩)
        · exact .inl hf
        · rcases List.mem_cons.1 hmem' with rfl | hxs
          · exact absurd hcf hc
          · exact .inr ⟨hxs, hcf⟩

/-- A filename lands in the skipped list of the scan fold exactly when it was
already there or is an unclassified member of the examined names. -/
lemma foldl_analyzeStep_mem_skipped (fs : FS) (path : String)
    (dm : List (String × String)) :
    ∀ (names : List String) (acc : List (String × List String) × List String)
      (f : String),
      f ∈ (names.foldl (analyzeStep fs path dm) acc).2 ↔
        f ∈ acc.2 ∨
          (f ∈ names ∧ (categorize_file fs f path dm).2 = false) := by
  intro names
  induction names with
  | nil => intro acc f; simp
  | cons x xs ih =>
    intro acc f
    rw [List.foldl_cons, ih]
    by_cases hc : (categorize_file fs x path dm).2 = true
    · rw [analyzeStep_classified fs path dm acc x hc]
      constructor
      · rintro (hf | ⟨hxs, hcf⟩)
        · exact .inl hf
        · exact .inr ⟨List.mem_cons_of_mem _ hxs, hcf⟩
      · rintro (hf | ⟨hmem', hcf⟩)
        · exact .inl hf
        · rcases List.mem_cons.1 hmem' with rfl | hxs
          · rw [hc] at hcf; cases hcf
          · exact .inr ⟨hxs, hcf⟩
    · rw [analyzeStep_unclassified fs path dm acc x (Bool.eq_false_iff.2 hc)]
      simp only [List.mem_append, List.mem_singleton]
      constructor
      · rintro ((hf | rfl) | ⟨hxs, hcf⟩)
        · exact .inl hf
        · exact .inr ⟨List.mem_cons_self _ _, Bool.eq_false_iff.2 hc⟩
        · exact .inr ⟨List.mem_cons_of_mem _ hxs, hcf⟩
      · rintro (hf | ⟨hmem', hcf⟩)
        · exact .inl (.inl hf)
        · rcases List.mem_cons.1 hmem' with rfl | hxs
          · exact .inl (.inr rfl)
          · exact .inr ⟨hxs, hcf⟩

/-- The scan fold never materializes a category with an empty file list. -/
lemma foldl_analyzeStep_nonempty (fs : FS) (path : String)
    (dm : List (String × String)) :
    ∀ (names : List String) (acc : List (String × List String) × List String),
      (∀ p ∈ acc.1, p.2 ≠ []) →
      ∀ p ∈ (names.foldl (analyzeStep fs path dm) acc).1, p.2 ≠ [] := by
  intro names
  induction names with
  | nil => intro acc h; exact h
  | cons x xs ih =>
    intro acc h
    rw [List.foldl_cons]
    refine ih (analyzeStep fs path dm acc x) ?_
    by_cases hc : (categorize_file fs x path dm).2 = true
    · rw [analyzeStep_classified fs path dm acc x hc]
      exact addToDir_nonempty acc.1 _ x h
    · rw [analyzeStep_unclassified fs path dm acc x (Bool.eq_false_iff.2 hc)]
      exact h

/-- A dry-run orchestrator step counts the category's files and changes
nothing else. -/
lemma orgStep_dry (path : String) (acc : FS × Nat × List String)
    (kv : String × List String) :
    orgStep path true acc kv = (acc.1, acc.2.1 + kv.2.length, acc.2.2) := by
  by_cases h : kv.2 = []
  · simp [orgStep, h]
  · simp [orgStep, h, process_directory_dry]

/-- Folding the dry-run orchestrator step counts all files of all categories
and changes nothing else. -/
lemma foldl_orgStep_dry (path : String) :
    ∀ (m : List (String × List String)) (acc : FS × Nat × List String),
      m.foldl (orgStep path true) acc = (acc.1, acc.2.1 + sumLens m, acc.2.2) := by
  intro m
  induction m with
  | nil => intro acc; simp [sumLens]
  | cons kv rest ih =>
    intro acc
    rw [List.foldl_cons, orgStep_dry, ih]
    have : acc.2.1 + kv.2.length + sumLens rest = acc.2.1 + sumLens (kv :: rest) := by
      simp [sumLens]; omega
    rw [this]

/-- Folding the non-dry orchestrator step appends all per-category failures
onto the running skipped list, conserves the file count, and draws every
appended name from some category's file list. -/
lemma foldl_orgStep_spec (path : String) :
    ∀ (m : List (String × List String)) (acc : FS × Nat × List String),
      ∃ extra : List String,
        (m.foldl (orgStep path false) acc).2.2 = acc.2.2 ++ extra ∧
        (m.foldl (orgStep path false) acc).2.1 + extra.length = acc.2.1 + sumLens m ∧
        ∀ f ∈ extra, ∃ kv ∈ m, f ∈ kv.2 := by
  intro m
  induction m with
  | nil => intro acc; exact ⟨[], by simp, by simp [sumLens], by simp⟩
  | cons kv rest ih =>
    intro acc
    rw [List.foldl_cons]
    by_cases h : kv.2 = []
    · have horg : orgStep path false acc kv = acc := by simp [orgStep, h]
      rw [horg]
      obtain ⟨extra, h1, h2, h3⟩ := ih acc
      refine ⟨extra, h1, ?_, ?_⟩
      · have : sumLens (kv :: rest) = sumLens rest := by simp [sumLens, h]
        rw [this]; exact h2
      · intro f hf
        obtain ⟨kv', hkv', hfkv'⟩ := h3 f hf
        exact ⟨kv', List.mem_cons_of_mem _ hkv', hfkv'⟩
    · have horg : orgStep path false acc kv =
          ((process_directory acc.1 path kv.1 kv.2 false).1,
           acc.2.1 + (process_directory acc.1 path kv.1 kv.2 false).2.1,
           acc.2.2 ++ (process_directory acc.1 path kv.1 kv.2 false).2.2) := by
        simp [orgStep, h]
      rw [horg]
      obtain ⟨extra, h1, h2, h3⟩ := ih
        ((process_directory acc.1 path kv.1 kv.2 false).1,
         acc.2.1 + (process_directory acc.1 path kv.1 kv.2 false).2.1,
         acc.2.2 ++ (process_directory acc.1 path kv.1 kv.2 false).2.2)
      refine ⟨(process_directory acc.1 path kv.1 kv.2 false).2.2 ++ extra, ?_, ?_, ?_⟩
      · rw [h1, List.append_assoc]
      · have hc := process_directory_count acc.1 path kv.1 kv.2 false
        have hs : sumLens (kv :: rest) = kv.2.length + sumLens rest := by
          simp [sumLens]
        rw [hs, List.length_append]
        simp only at h2
        omega
      · intro f hf
        rcases List.mem_append.1 hf with hf' | hf'
        · exact ⟨kv, List.mem_cons_self _ _,
            process_directory_failed_mem acc.1 path kv.1 kv.2 false f hf'⟩
        · obtain ⟨kv', hkv', hfkv'⟩ := h3 f hf'
          exact ⟨kv', List.mem_cons_of_mem _ hkv', hfkv'⟩

/-- After a dict assignment, looking up the assigned key yields the assigned
value. -/
lemma dictGet_dictSet_self {α : Type} (m : List (String × α)) (k : String) (v : α) :
    dictGet (dictSet m k v) k = some v := by
  induction m with
  | nil => simp [dictSet, dictGet]
  | cons kv rest ih =>
    cases kv with
    | mk k0 v0 =>
      by_cases h : k0 = k
      · simp [dictSet, dictGet, h]
      · simp [dictSet, dictGet, h, ih]

/-- A dict assignment leaves every other key's binding unchanged. -/
lemma dictGet_dictSet_ne {α : Type} (m : List (String × α)) (k k' : String) (v : α)
    (h : k ≠ k') : dictGet (dictSet m k v) k' = dictGet m k' := by
  induction m with
  | nil => simp [dictSet, dictGet, h]
  | cons kv rest ih =>
    cases kv with
    | mk k0 v0 =>
      by_cases h0 : k0 = k
      · subst h0
        simp [dictSet, dictGet, h]
      · have h2 : ¬(k' = k) := fun he => h he.symm
        by_cases h1 : k0 = k' <;> simp [dictSet, dictGet, h0, h1, h2, ih]

/-- Folding dict assignments whose keys avoid `k` preserves `k`'s binding. -/
lemma dictGet_foldl_dictSet_not_mem {α : Type} :
    ∀ (user : List (String × α)) (m : List (String × α)) (k : String),
      k ∉ user.map Prod.fst →
      dictGet (user.foldl (fun m kv => dictSet m kv.1 kv.2) m) k = dictGet m k := by
  intro user
  induction user with
  | nil => intro m k _; rfl
  | cons kv rest ih =>
    intro m k h
    simp only [List.map_cons, List.mem_cons] at h
    push_neg at h
    rw [List.foldl_cons, ih _ k h.2,
      dictGet_dictSet_ne m kv.1 k kv.2 (fun he => h.1 he.symm)]

/-- Folding dict assignments with pairwise-distinct keys binds each assigned
key to its assigned value. -/
lemma dictGet_foldl_dictSet_mem {α : Type} :
    ∀ (user : List (String × α)) (m : List (String × α)) (k : String) (v : α),
      (user.map Prod.fst).Nodup → (k, v) ∈ user →
      dictGet (user.foldl (fun m kv => dictSet m kv.1 kv.2) m) k = some v := by
  intro user
  induction user with
  | nil => intro m k v _ h; cases h
  | cons kv rest ih =>
    intro m k v hnd hmem
    simp only [List.map_cons, List.nodup_cons] at hnd
    rw [List.foldl_cons]
    rcases List.mem_cons.1 hmem with h | h
    · have hk : k ∉ rest.map Prod.fst := by
        have : kv.1 = k := by rw [← h]
        rw [← this]; exact hnd.1
      rw [dictGet_foldl_dictSet_not_mem rest _ k hk]
      have : dictSet m kv.1 kv.2 = dictSet m k v := by rw [← h]
      rw [this, dictGet_dictSet_self]
    · exact ih _ k v hnd.2 h

/-- `lastIdxOf` finds nothing when the character does not occur. -/
lemma lastIdxOf_eq_none {l : List Char} {c : Char} (h : c ∉ l) :
    lastIdxOf l c = none := by
  induction l with
  | nil => rfl
  | cons x xs ih =>
    simp only [List.mem_cons] at h
    push_neg at h
    have hx : ¬(x = c) := fun he => h.1 he.symm
    simp [lastIdxOf, ih h.2, hx]

/-- `splitext` on a separator-free string: split at the last dot unless every
character before it is a dot. -/
lemma splitext_no_sep (p : String) (hsep : '/' ∉ p.data) :
    splitext p =
      match lastIdxOf p.data '.' with
      | none => (p, "")
      | some d =>
        if (p.data.take d).any (fun ch => ch ≠ '.') then
          (⟨p.data.take d⟩, ⟨p.data.drop d⟩)
        else (p, "") := by
  simp only [splitext]
  rw [lastIdxOf_eq_none hsep]
  rcases hdot : lastIdxOf p.data '.' with _ | d
  · simp
  · have hlt : (-1 : Int) < (d : Int) := by omega
    simp [hlt, Int.toNat_natCast]

/-- A readable listing makes the scan succeed with the folded partition. -/
lemma analyze_files_eq_ok (fs : FS) (path : String) (dm : List (String × String))
    (names : List String) (hl : fs.listing path = some names) :
    analyze_files fs path dm = .ok (names.foldl (analyzeStep fs path dm) ([], [])) := by
  unfold analyze_files
  rw [hl]

/-- Inversion of a successful scan: it came from a readable listing whose
fold produced the returned partition. -/
lemma analyze_files_ok_inv (fs : FS) (path : String) (dm : List (String × String))
    (m : List (String × List String)) (sk : List String)
    (h : analyze_files fs path dm = .ok (m, sk)) :
    ∃ names, fs.listing path = some names ∧
      names.foldl (analyzeStep fs path dm) ([], []) = (m, sk) := by
  unfold analyze_files at h
  rcases hl : fs.listing path with _ | names
  · rw [hl] at h; cases h
  · rw [hl] at h
    refine ⟨names, rfl, ?_⟩
    have h' : (Except.ok (names.foldl (analyzeStep fs path dm) ([], []))
        : Except OrgError (List (String × List String) × List String)) = .ok (m, sk) := h
    simpa using h'

/-- C1 counterexample: on `fsC1` the classified file `b.txt` fails to move
(writing at `/r/Docs/b.txt` is denied) and `organize` reports the skipped
list `["noext", "b.txt"]` — the classified-but-failed filename has been
appended to the same single list that holds the unclassified `noext`, so the
failed files are not reported in a list distinct from the unclassified
ones. -/
theorem organize_merges_failed_into_skipped_cex :
    (organize fsC1 "/r" dirMapDefault false).toOption.map (fun r => (r.2.1, r.2.2))
        = some (0, ["noext", "b.txt"])
    ∧ (categorize_file fsC1 "b.txt" "/r" dirMapDefault).2 = true
    ∧ (categorize_file fsC1 "noext" "/r" dirMapDefault).2 = false :=
  ⟨by decide, by decide, by decide⟩

/-- C1 (amended): `process_directory` does return its failed filenames
separately, but `organize` then appends them onto the unclassified (skipped)
list — the run's final skipped report is the scan's unclassified list
followed by every relocation failure, one merged list; the moved total plus
the appended failures account for every classified file, and every appended
name was classified at scan time. -/
theorem organize_appends_failures_to_skipped
    (fs : FS) (path : String) (dm : List (String × String))
    (m : List (String × List String)) (sk : List String)
    (h : analyze_files fs path dm = .ok (m, sk)) :
    ∃ fs' total extra,
      organize fs path dm false = .ok (fs', total, sk ++ extra) ∧
      total + extra.length = sumLens m ∧
      ∀ f ∈ extra, (categorize_file fs f path dm).2 = true := by
  obtain ⟨extra, h1, h2, h3⟩ := foldl_orgStep_spec path m (fs, 0, sk)
  refine ⟨(m.foldl (orgStep path false) (fs, 0, sk)).1,
          (m.foldl (orgStep path false) (fs, 0, sk)).2.1, extra, ?_, ?_, ?_⟩
  · unfold organize
    rw [h]
    show Except.ok (m.foldl (orgStep path false) (fs, 0, sk)) = _
    rw [← h1]
  · simpa using h2
  · intro f hf
    obtain ⟨kv, hkv, hfkv⟩ := h3 f hf
    obtain ⟨names, hl, hfold⟩ := analyze_files_ok_inv fs path dm m sk h
    have hm : (names.foldl (analyzeStep fs path dm) ([], [])).1 = m := by rw [hfold]
    have hc : f ∈ contents m := by
      unfold contents
      exact List.mem_flatten.2 ⟨kv.2, List.mem_map.2 ⟨kv, hkv, rfl⟩, hfkv⟩
    rw [← hm] at hc
    rcases (foldl_analyzeStep_mem_contents fs path dm names ([], []) f).1 hc with
      habs | ⟨_, hcl⟩
    · simp [contents] at habs
    · exact hcl

/-- Witness for the amended C1 theorem at the concrete run `fsC1`. -/
theorem organize_appends_failures_to_skipped_witness :
    analyze_files fsC1 "/r" dirMapDefault = .ok ([("Docs", ["b.txt"])], ["noext"])
    ∧ ∃ fs' total extra,
        organize fsC1 "/r" dirMapDefault false = .ok (fs', total, ["noext"] ++ extra) ∧
        total + extra.length = sumLens [("Docs", ["b.txt"])] ∧
        ∀ f ∈ extra, (categorize_file fsC1 f "/r" dirMapDefault).2 = true :=
  ⟨by rfl,
    organize_appends_failures_to_skipped fsC1 "/r" dirMapDefault
      [("Docs", ["b.txt"])] ["noext"] (by rfl)⟩

/-- C2 counterexample: for the regular file named `.pdf` under `/r`, the
rule stated by the specification (extension = substring from the last `.`,
so the whole name) classifies it to `Docs/PDF`, but `categorize_file`
(through `os.path.splitext`, which treats the leading dot as part of the
root) leaves it unclassified. -/
theorem classify_leading_dot_cex :
    specClassifyNaive fsDot ".pdf" "/r" dirMapDefault = ("Docs/PDF", true)
    ∧ categorize_file fsDot ".pdf" "/r" dirMapDefault = ("", false) :=
  ⟨by decide, by decide⟩

/-- C2 (amended): for every separator-free entry name and every index with
no entry for the empty extension, the classifier behaves exactly as the
specification's rule corrected for `os.path.splitext`'s leading-dot
convention: the extension is the substring from the last `.`, except that a
name all of whose characters before that dot are dots has no extension;
the extension is lowercased and looked up, `(category, true)` on a hit and
`("", false)` on a miss or no extension. -/
theorem classify_extension_rule
    (fs : FS) (file path : String) (dm : List (String × String))
    (hsep : '/' ∉ file.data) (hempty : dictGet dm "" = none) :
    categorize_file fs file path dm = specClassifyPosix fs file path dm := by
  unfold categorize_file specClassifyPosix
  by_cases hf : isfile fs (pathJoin path file) = true
  · simp only [hf, if_true]
    cases hdot : lastIdxOf file.data '.' with
    | none =>
      have hse : splitext file = (file, "") := by
        rw [splitext_no_sep file hsep, hdot]
      have hspec : specExtPosix file = none := by
        unfold specExtPosix; rw [hdot]
      rw [hse, hspec]
      show (match dictGet dm (pyLower "") with
            | some c => (c, true) | none => ("", false)) = ("", false)
      rw [show pyLower "" = "" from rfl, hempty]
    | some d =>
      by_cases hany : ((file.data.take d).any fun ch => decide (ch ≠ '.')) = true
      · have hse : splitext file = (⟨file.data.take d⟩, ⟨file.data.drop d⟩) := by
          rw [splitext_no_sep file hsep, hdot]; exact if_pos hany
        have hspec : specExtPosix file = some ⟨file.data.drop d⟩ := by
          unfold specExtPosix; rw [hdot]; exact if_pos hany
        rw [hse, hspec]
      · have hse : splitext file = (file, "") := by
          rw [splitext_no_sep file hsep, hdot]; exact if_neg hany
        have hspec : specExtPosix file = none := by
          unfold specExtPosix; rw [hdot]; exact if_neg hany
        rw [hse, hspec]
        show (match dictGet dm (pyLower "") with
              | some c => (c, true) | none => ("", false)) = ("", false)
        rw [show pyLower "" = "" from rfl, hempty]
  · simp [hf]

/-- Witness for the amended C2 theorem at the entry `doc.pdf` of `fsDemo`. -/
theorem classify_extension_rule_witness :
    ('/' ∉ ("doc.pdf" : String).data)
    ∧ dictGet dirMapDefault "" = none
    ∧ categorize_file fsDemo "doc.pdf" "/r" dirMapDefault
        = specClassifyPosix fsDemo "doc.pdf" "/r" dirMapDefault :=
  ⟨by decide, by decide,
    classify_extension_rule fsDemo "doc.pdf" "/r" dirMapDefault (by decide) (by decide)⟩

/-- C3 counterexample: the separator-containing entry name `sub/x.pdf` does
not name a regular file directly under `/r`, yet `categorize_file` does not
fail closed on it: the joined path `/r/sub/x.pdf` is a regular file of
`fsNested`, so the entry is classified to `Docs/PDF` with `true`. -/
theorem classify_nested_path_cex :
    ('/' ∈ ("sub/x.pdf" : String).data)
    ∧ categorize_file fsNested "sub/x.pdf" "/r" dirMapDefault = ("Docs/PDF", true) :=
  ⟨by decide, by decide⟩

/-- C3 (amended): the classifier fails closed exactly on the joined path:
whenever `root_path/entry_name` is not a regular file — a symbolic link to a
directory, a plain directory, or nothing at all — it returns `("", false)`;
direct-childhood of the entry name is not itself checked. -/
theorem classify_fails_closed
    (fs : FS) (file path : String) (dm : List (String × String))
    (h : fs.kind (pathJoin path file) ≠ some FKind.file) :
    categorize_file fs file path dm = ("", false) := by
  have hf : isfile fs (pathJoin path file) = false := by
    unfold isfile
    cases hk : fs.kind (pathJoin path file) with
    | none => rfl
    | some k =>
      cases k with
      | file => exact absurd hk h
      | dir => rfl
      | dirLink => rfl
  simp [categorize_file, hf]

/-- Witness for the amended C3 theorem at a non-existent entry. -/
theorem classify_fails_closed_witness :
    fsUnreadable.kind (pathJoin "/r" "ghost.pdf") ≠ some FKind.file
    ∧ categorize_file fsUnreadable "ghost.pdf" "/r" dirMapDefault = ("", false) :=
  ⟨by decide, classify_fails_closed fsUnreadable "ghost.pdf" "/r" dirMapDefault (by decide)⟩

/-- C4: per-file failure isolation of the relocator. Generally, every run of
`process_directory` accounts for its whole input — moved plus failed equals
the input count, and failures are drawn from the input, so no failure aborts
the batch. Concretely, for `[a.txt, b.txt, c.txt]` under `fs4` where only
`b.txt`'s move fails (its source vanished after the scan), the result is
`moved_count = 2` with failed list `[b.txt]`, and both `a.txt` and `c.txt`
are relocated into `/r/Docs`. -/
theorem relocate_isolates_failures :
    (∀ (fs : FS) (path dest_dir : String) (files : List String),
        (process_directory fs path dest_dir files false).2.1
          + (process_directory fs path dest_dir files false).2.2.length = files.length
        ∧ (process_directory fs path dest_dir files false).2.2 ⊆ files)
    ∧ (process_directory fs4 "/r" "Docs" ["a.txt", "b.txt", "c.txt"] false).2.1 = 2
    ∧ (process_directory fs4 "/r" "Docs" ["a.txt", "b.txt", "c.txt"] false).2.2 = ["b.txt"]
    ∧ (process_directory fs4 "/r" "Docs" ["a.txt", "b.txt", "c.txt"] false).1.kind
        "/r/Docs/a.txt" = some FKind.file
    ∧ (process_directory fs4 "/r" "Docs" ["a.txt", "b.txt", "c.txt"] false).1.kind
        "/r/Docs/c.txt" = some FKind.file
    ∧ (process_directory fs4 "/r" "Docs" ["a.txt", "b.txt", "c.txt"] false).1.kind
        "/r/a.txt" = none
    ∧ (process_directory fs4 "/r" "Docs" ["a.txt", "b.txt", "c.txt"] false).1.kind
        "/r/c.txt" = none :=
  ⟨fun fs path dest_dir files =>
    ⟨process_directory_count fs path dest_dir files false,
     fun f hf => process_directory_failed_mem fs path dest_dir files false f hf⟩,
   by decide, by decide, by decide, by decide, by decide, by decide⟩

/-- Witness instantiating the general part of the C4 theorem. -/
theorem relocate_isolates_failures_witness :
    (process_directory fsDemo "/r" "Docs" ["doc.pdf"] false).2.1
      + (process_directory fsDemo "/r" "Docs" ["doc.pdf"] false).2.2.length = 1 :=
  (relocate_isolates_failures.1 fsDemo "/r" "Docs" ["doc.pdf"]).1

/-- C5: dry-run purity. A dry `process_directory` returns the starting
filesystem state unchanged (no move, no directory creation), counts every
filename as "would move" and fails none; a dry `organize` likewise returns
the same state with the total count of classified files and exactly the
scan's unclassified list. -/
theorem dry_run_is_pure :
    (∀ (fs : FS) (path dest_dir : String) (files : List String),
        process_directory fs path dest_dir files true = (fs, files.length, []))
    ∧ (∀ (fs : FS) (path : String) (dm : List (String × String))
        (m : List (String × List String)) (sk : List String),
        analyze_files fs path dm = .ok (m, sk) →
        organize fs path dm true = .ok (fs, sumLens m, sk)) := by
  refine ⟨process_directory_dry, ?_⟩
  intro fs path dm m sk h
  unfold organize
  rw [h]
  show Except.ok (m.foldl (orgStep path true) (fs, 0, sk)) = .ok (fs, sumLens m, sk)
  rw [foldl_orgStep_dry]
  norm_num

/-- Witness for the C5 theorem at the concrete directory `fsDemo`. -/
theorem dry_run_is_pure_witness :
    analyze_files fsDemo "/r" dirMapDefault =
      .ok ([("Docs/PDF", ["doc.pdf"]), ("Images", ["pic.JPG"])], ["readme", "blob.xyz"])
    ∧ organize fsDemo "/r" dirMapDefault true =
      .ok (fsDemo, 2, ["readme", "blob.xyz"]) :=
  ⟨by rfl,
    dry_run_is_pure.2 fsDemo "/r" dirMapDefault
      [("Docs/PDF", ["doc.pdf"]), ("Images", ["pic.JPG"])] ["readme", "blob.xyz"] (by rfl)⟩

/-- C6: override replacement, not merge. A category name present in the user
table (with pairwise-distinct names) is bound in the merged table to exactly
the user-supplied extension list, a name absent from the user table keeps its
default binding, and concretely merging the defaults with
`{Images: [".heic"]}`, flattening, and looking up `".jpg"` is a miss. -/
theorem merge_overrides_wholly :
    (∀ (user : List (String × List String)),
        (user.map Prod.fst).Nodup →
        ∀ k v, (k, v) ∈ user →
          dictGet (merge_categories (some user)) k = some v)
    ∧ (∀ (user : List (String × List String)) (k : String),
        k ∉ user.map Prod.fst →
          dictGet (merge_categories (some user)) k = dictGet DEFAULT_FILE_CATEGORIES k)
    ∧ dictGet (build_extension_map (merge_categories (some [("Images", [".heic"])])))
        ".jpg" = none := by
  refine ⟨?_, ?_, by decide⟩
  · intro user hnd k v hmem
    exact dictGet_foldl_dictSet_mem user DEFAULT_FILE_CATEGORIES k v hnd hmem
  · intro user k hk
    exact dictGet_foldl_dictSet_not_mem user DEFAULT_FILE_CATEGORIES k hk

/-- Witness for the C6 theorem at the user table `{Images: [".heic"]}`. -/
theorem merge_overrides_wholly_witness :
    (([("Images", [".heic"])] : List (String × List String)).map Prod.fst).Nodup
    ∧ (("Images", [".heic"]) ∈ ([("Images", [".heic"])] : List (String × List String)))
    ∧ dictGet (merge_categories (some [("Images", [".heic"])])) "Images" = some [".heic"] :=
  ⟨by decide, by decide,
    merge_overrides_wholly.1 [("Images", [".heic"])] (by decide) "Images" [".heic"]
      (by decide)⟩

/-- C7: partition completeness of the scanner. For a readable listing, the
scan succeeds, the category contents together with the unclassified list are
a permutation of the listing, no materialized category has an empty file
list, every listed entry is in exactly one of the two collections
(classified entries in the contents and not the skipped list, unclassified
entries the other way round), and for a duplicate-free listing the combined
collections are duplicate-free, so no entry is in two category lists. -/
theorem scan_partitions_listing
    (fs : FS) (path : String) (dm : List (String × String)) (names : List String)
    (hl : fs.listing path = some names) :
    ∃ m sk, analyze_files fs path dm = .ok (m, sk)
      ∧ (contents m ++ sk) ~ names
      ∧ (∀ p ∈ m, p.2 ≠ [])
      ∧ (∀ f ∈ names,
          (f ∈ contents m ∧ f ∉ sk) ∨ (f ∉ contents m ∧ f ∈ sk))
      ∧ (names.Nodup → (contents m ++ sk).Nodup) := by
  refine ⟨(names.foldl (analyzeStep fs path dm) ([], [])).1,
          (names.foldl (analyzeStep fs path dm) ([], [])).2,
          analyze_files_eq_ok fs path dm names hl, ?_, ?_, ?_, ?_⟩
  case refine_1 =>
    have := foldl_analyzeStep_perm fs path dm names ([], [])
    simpa [contents] using this
  case refine_2 =>
    exact foldl_analyzeStep_nonempty fs path dm names ([], []) (by simp)
  case refine_3 =>
    intro f hf
    have hc := foldl_analyzeStep_mem_contents fs path dm names ([], []) f
    have hs := foldl_analyzeStep_mem_skipped fs path dm names ([], []) f
    by_cases hcl : (categorize_file fs f path dm).2 = true
    · left
      refine ⟨hc.2 (.inr ⟨hf, hcl⟩), ?_⟩
      intro hsk
      rcases hs.1 hsk with h' | ⟨_, h'⟩
      · simp at h'
      · rw [hcl] at h'; cases h'
    · right
      refine ⟨?_, hs.2 (.inr ⟨hf, Bool.eq_false_iff.2 hcl⟩)⟩
      intro hct
      rcases hc.1 hct with h' | ⟨_, h'⟩
      · simp [contents] at h'
      · exact hcl h'
  case refine_4 =>
    intro hnd
    have := foldl_analyzeStep_perm fs path dm names ([], [])
    have hperm : (contents (names.foldl (analyzeStep fs path dm) ([], [])).1
        ++ (names.foldl (analyzeStep fs path dm) ([], [])).2) ~ names := by
      simpa [contents] using this
    exact hperm.nodup_iff.2 hnd

/-- Witness for the C7 theorem at the listing of `fsDemo`. -/
theorem scan_partitions_listing_witness :
    fsDemo.listing "/r" = some ["doc.pdf", "pic.JPG", "readme", "blob.xyz"]
    ∧ ∃ m sk, analyze_files fsDemo "/r" dirMapDefault = .ok (m, sk)
      ∧ (contents m ++ sk) ~ ["doc.pdf", "pic.JPG", "readme", "blob.xyz"]
      ∧ (∀ p ∈ m, p.2 ≠ [])
      ∧ (∀ f ∈ ["doc.pdf", "pic.JPG", "readme", "blob.xyz"],
          (f ∈ contents m ∧ f ∉ sk) ∨ (f ∉ contents m ∧ f ∈ sk))
      ∧ (["doc.pdf", "pic.JPG", "readme", "blob.xyz"].Nodup → (contents m ++ sk).Nodup) :=
  ⟨rfl, scan_partitions_listing fsDemo "/r" dirMapDefault
    ["doc.pdf", "pic.JPG", "readme", "blob.xyz"] rfl⟩

/-- C8: an unlistable root path makes the scan fail with the
`directoryUnreadable` condition, and `organize` propagates exactly that
error — before any relocation, with no success value and no failed-files
list to absorb it. -/
theorem scan_unreadable_propagates
    (fs : FS) (path : String) (dm : List (String × String)) (dry_run : Bool)
    (h : fs.listing path = none) :
    analyze_files fs path dm = .error .directoryUnreadable
    ∧ organize fs path dm dry_run = .error .directoryUnreadable := by
  have ha : analyze_files fs path dm = .error .directoryUnreadable := by
    unfold analyze_files
    rw [h]
  refine ⟨ha, ?_⟩
  unfold organize
  rw [ha]

/-- Witness for the C8 theorem on the unlistable filesystem. -/
theorem scan_unreadable_propagates_witness :
    fsUnreadable.listing "/r" = none
    ∧ analyze_files fsUnreadable "/r" dirMapDefault = .error .directoryUnreadable
    ∧ organize fsUnreadable "/r" dirMapDefault false = .error .directoryUnreadable :=
  ⟨rfl,
    (scan_unreadable_propagates fsUnreadable "/r" dirMapDefault false rfl).1,
    (scan_unreadable_propagates fsUnreadable "/r" dirMapDefault false rfl).2⟩

/-- C9: case-insensitivity of classification. Two entry names that are both
regular files under the root and whose extracted extensions agree after
lowercasing — in particular names differing only in the letter case of their
extension — classify identically: same category, same flag. -/
theorem classify_case_insensitive
    (fs : FS) (root : String) (dm : List (String × String)) (f1 f2 : String)
    (h1 : isfile fs (pathJoin root f1) = true)
    (h2 : isfile fs (pathJoin root f2) = true)
    (hext : pyLower (splitext f1).2 = pyLower (splitext f2).2) :
    categorize_file fs f1 root dm = categorize_file fs f2 root dm := by
  simp only [categorize_file, h1, h2, hext]

/-- Witness for the C9 theorem at `FILE.PDF` and `file.pdf` under `fsCase`. -/
theorem classify_case_insensitive_witness :
    isfile fsCase (pathJoin "/r" "FILE.PDF") = true
    ∧ isfile fsCase (pathJoin "/r" "file.pdf") = true
    ∧ pyLower (splitext "FILE.PDF").2 = pyLower (splitext "file.pdf").2
    ∧ categorize_file fsCase "FILE.PDF" "/r" dirMapDefault
        = categorize_file fsCase "file.pdf" "/r" dirMapDefault :=
  ⟨by decide, by decide, by decide,
    classify_case_insensitive fsCase "/r" dirMapDefault "FILE.PDF" "file.pdf"
      (by decide) (by decide) (by decide)⟩

/-- C10: conservation at the relocator interface. For every filesystem
state, root, destination, filename list and dry-run flag, the moved count
plus the number of failed filenames equals the input length, and the failed
filenames are drawn from the input list. -/
theorem relocate_conserves_input
    (fs : FS) (path dest_dir : String) (files : List String) (dry_run : Bool) :
    (process_directory fs path dest_dir files dry_run).2.1
      + (process_directory fs path dest_dir files dry_run).2.2.length = files.length
    ∧ (process_directory fs path dest_dir files dry_run).2.2 ⊆ files :=
  ⟨process_directory_count fs path dest_dir files dry_run,
   fun f hf => process_directory_failed_mem fs path dest_dir files dry_run f hf⟩

/-- Witness instantiating the C10 theorem at a concrete batch with one
failure. -/
theorem relocate_conserves_input_witness :
    (process_directory fs4 "/r" "Docs" ["a.txt", "b.txt", "c.txt"] false).2.1
      + (process_directory fs4 "/r" "Docs" ["a.txt", "b.txt", "c.txt"] false).2.2.length
      = 3 :=
  (relocate_conserves_input fs4 "/r" "Docs" ["a.txt", "b.txt", "c.txt"] false).1

end Orgpy
